import Mathlib

/-!
Verification of the `pho` transactional install pipeline
(`commands/install.go` and the batch runner `InstallApps`).

The Go code is shallowly embedded: the filesystem, the transaction
journal and the global installed-apps registry are explicit state;
every fallible external collaborator (asset download stream, bundle
extractor, config store) is an oracle recorded in a `World` value, so
that each run of the pipeline is a pure, executable function of its
inputs.  Machine integers (`int64` progress counters, asset sizes) are
modelled as `Int`; byte contents as `List Nat`.
-/

namespace Pho

/-! ### Association lists (Go maps keyed by strings) -/

/-- Lookup in an association list, first binding wins. -/
def lookupA {β : Type} : List (String × β) → String → Option β
  | [], _ => none
  | e :: m, k => if e.1 = k then some e.2 else lookupA m k

/-- Delete every binding of a key (Go `delete(m, k)`). -/
def eraseA {β : Type} (m : List (String × β)) (k : String) : List (String × β) :=
  m.filter (fun e => decide (e.1 ≠ k))

/-- Overwriting insert (Go `m[k] = v`). -/
def insertA {β : Type} (m : List (String × β)) (k : String) (v : β) : List (String × β) :=
  (k, v) :: eraseA m k

/-! ### Filesystem model -/

/-- A regular file: its byte content and whether it is executable. -/
structure FileRec where
  content : List Nat
  exec : Bool
deriving DecidableEq, Repr

/-- A filesystem: files keyed by path, plus the set of directories. -/
structure FS where
  files : List (String × FileRec)
  dirs : List String
deriving DecidableEq, Repr

/-- Create or overwrite the file at a path. -/
def setFile (fs : FS) (p : String) (f : FileRec) : FS :=
  ⟨insertA fs.files p f, fs.dirs⟩

/-- Remove the file at a path. -/
def removeFile (fs : FS) (p : String) : FS :=
  ⟨eraseA fs.files p, fs.dirs⟩

/-- `os.MkdirAll`: ensure a directory exists (idempotent). -/
def mkdirAll (fs : FS) (d : String) : FS :=
  if d ∈ fs.dirs then fs else ⟨fs.files, d :: fs.dirs⟩

/-- Append a chunk of bytes to the file at a path (stream write). -/
def appendToFile (fs : FS) (p : String) (c : List Nat) : FS :=
  match lookupA fs.files p with
  | some f => setFile fs p ⟨f.content ++ c, f.exec⟩
  | none => setFile fs p ⟨c, false⟩

/-- `os.Rename src dst`: move the file record, overwriting `dst`. -/
def osRename (fs : FS) (src dst : String) : FS :=
  match lookupA fs.files src with
  | some f => setFile (removeFile fs src) dst f
  | none => fs

/-- `os.Chmod p 0755`: mark the file at `p` executable. -/
def chmodExec (fs : FS) (p : String) : FS :=
  match lookupA fs.files p with
  | some f => setFile fs p ⟨f.content, true⟩
  | none => fs

/-- Whether path `p` lies strictly under directory `d`. -/
def underDir (d p : String) : Bool := List.isPrefixOf (d ++ "/").data p.data

/-- `os.RemoveAll d`: drop the directory `d` and everything under it. -/
def removeAllDir (fs : FS) (d : String) : FS :=
  ⟨fs.files.filter (fun e => !underDir d e.1),
   fs.dirs.filter (fun q => decide (q ≠ d) && !underDir d q)⟩

/-- Go `path.Dir`: the parent directory of a path (everything before
the last slash; only ever used as a directory-set key). -/
def parentDir (p : String) : String :=
  ⟨((p.data.reverse.dropWhile (fun c => c != '/')).drop 1).reverse⟩

/-! ### Data model (from `install.go` and the spec's collaborator contracts) -/

/-- The status enum; source order of the constants follows the Go
`iota` block (`InstallableAppFailed` first). -/
inductive InstallableAppStatus where
  | failed
  | downloading
  | integrating
  | installed
deriving DecidableEq, Repr

/-- Integer value of each enum constant (Go `iota`, in source order). -/
def statusCode : InstallableAppStatus → Nat
  | .failed => 0
  | .downloading => 1
  | .integrating => 2
  | .installed => 3

/-- Decode an integer back into a status constant. -/
def statusOfCode (n : Nat) : Option InstallableAppStatus :=
  match n with
  | 0 => some .failed
  | 1 => some .downloading
  | 2 => some .integrating
  | 3 => some .installed
  | _ => none

/-- The set of filesystem locations an install touches (`core.AppPaths`). -/
structure AppPaths where
  dir : String
  appImage : String
  desktop : String
  icon : String
  config : String
  sourceConfig : String
deriving DecidableEq, Repr

/-- `core.AppConfig` as used by the pipeline (id, display name, version,
source tag, and its resolved paths). -/
structure AppConfig where
  id : String
  name : String
  version : String
  source : String
  paths : AppPaths
deriving DecidableEq, Repr

/-- `core.Asset`: a downloadable artifact descriptor. -/
structure Asset where
  name : String
  downloadUrl : String
  size : Int
deriving DecidableEq, Repr

/-- A `core.PendingInstallation` journal entry. -/
structure PendingInstallation where
  involvedDirs : List String
  involvedFiles : List String
deriving DecidableEq, Repr

/-- Behaviour of one `io.Copy` from the asset's byte stream: the chunks
delivered (each handed to the fan-out writer), then whether the copy
ends at EOF (`copyOk = true`) or in a read/write error. -/
structure StreamBehavior where
  chunks : List (List Nat)
  copyOk : Bool
deriving DecidableEq, Repr

/-- Oracles fixing the outcome of every external call one install makes. -/
structure World where
  mkdirDirOk : Bool
  mkdirDesktopOk : Bool
  createTempOk : Bool
  assetDownloadOk : Bool
  stream : StreamBehavior
  renameOk : Bool
  chmodOk : Bool
  deflateOk : Bool
  deflatedNames : List String
  extractOk : Bool
  copyIconOk : Bool
  iconBytes : List Nat
  installDesktopOk : Bool
  desktopBytes : List Nat
  saveAppConfigOk : Bool
  saveSourceConfigOk : Bool
  readConfigOk : Bool
  saveGlobalOk : Bool
deriving DecidableEq, Repr

/-- Every error site of the pipeline, in source order. -/
inductive Err where
  | mkdirDir
  | mkdirDesktop
  | createTemp
  | assetDownload
  | copyStream
  | renameBundle
  | chmodBundle
  | mkdirScratch
  | deflate
  | extractMetadata
  | copyIcon
  | installDesktop
  | saveAppConfig
  | saveSourceConfig
  | readConfig
  | saveGlobalConfig
deriving DecidableEq, Repr

/-- Pipeline stage an error belongs to. -/
inductive Stage where
  | download
  | integrate
  | persist
deriving DecidableEq, Repr

/-- Stage of each error site. -/
def Err.stage : Err → Stage
  | .mkdirDir | .mkdirDesktop | .createTemp | .assetDownload
  | .copyStream | .renameBundle | .chmodBundle => .download
  | .mkdirScratch | .deflate | .extractMetadata | .copyIcon
  | .installDesktop => .integrate
  | .saveAppConfig | .saveSourceConfig | .readConfig
  | .saveGlobalConfig => .persist

/-- Decidable equality for `Except`, so pipeline results can be
compared computably. -/
instance {ε α : Type} [DecidableEq ε] [DecidableEq α] : DecidableEq (Except ε α) := fun x y =>
  match x, y with
  | .ok a, .ok b =>
      if h : a = b then .isTrue (by rw [h])
      else .isFalse (by intro hc; cases hc; exact h rfl)
  | .error a, .error b =>
      if h : a = b then .isTrue (by rw [h])
      else .isFalse (by intro hc; cases hc; exact h rfl)
  | .ok _, .error _ => .isFalse (by intro hc; cases hc)
  | .error _, .ok _ => .isFalse (by intro hc; cases hc)

/-! ### Download (`InstallableApp.Download`) -/

/-- Modelled from the spec: `utils.CreateTempFile` (repository code not
under `src/`) creates a fresh empty temporary file colocated with the
given final path — same directory, distinct name.  The temp path is the
final path with a fixed suffix appended. -/
def tempPath (p : String) : String := p ++ ".tmp"

/-- The chunk loop of `io.Copy(io.MultiWriter(tempFile, x), data)`:
each chunk is appended to the temp file and its length added to the
progress counter.  Returns the final filesystem, the final progress and
the filesystem snapshot after each chunk write. -/
def copyChunks (tp : String) : List (List Nat) → FS → Int → FS × Int × List FS
  | [], fs, prog => (fs, prog, [])
  | c :: cs, fs, prog =>
      let fs1 := appendToFile fs tp c
      let r := copyChunks tp cs fs1 (prog + (c.length : Int))
      (r.1, r.2.1, fs1 :: r.2.2)

/-- Result of `Download`: outcome, final filesystem, final progress
counter, and the filesystem snapshot after every primitive operation. -/
structure DownloadOut where
  res : Except Err Unit
  fs : FS
  progress : Int
  snaps : List FS
deriving DecidableEq, Repr

/-- The body of `InstallableApp.Download`, in source order:
`MkdirAll(Dir)`, `MkdirAll(path.Dir(Desktop))`, `CreateTempFile`,
`Asset.Download()`, the fan-out copy, `os.Rename` to the final bundle
path, `os.Chmod 0755`. -/
def download (w : World) (paths : AppPaths) (fs0 : FS) (prog0 : Int) : DownloadOut :=
  if !w.mkdirDirOk then ⟨.error .mkdirDir, fs0, prog0, []⟩ else
  let fs1 := mkdirAll fs0 paths.dir
  if !w.mkdirDesktopOk then ⟨.error .mkdirDesktop, fs1, prog0, [fs1]⟩ else
  let fs2 := mkdirAll fs1 (parentDir paths.desktop)
  if !w.createTempOk then ⟨.error .createTemp, fs2, prog0, [fs1, fs2]⟩ else
  let tp := tempPath paths.appImage
  let fs3 := setFile fs2 tp ⟨[], false⟩
  if !w.assetDownloadOk then ⟨.error .assetDownload, fs3, prog0, [fs1, fs2, fs3]⟩ else
  let r := copyChunks tp w.stream.chunks fs3 prog0
  if !w.stream.copyOk then ⟨.error .copyStream, r.1, r.2.1, [fs1, fs2, fs3] ++ r.2.2⟩ else
  if !w.renameOk then ⟨.error .renameBundle, r.1, r.2.1, [fs1, fs2, fs3] ++ r.2.2⟩ else
  let fs5 := osRename r.1 tp paths.appImage
  if !w.chmodOk then ⟨.error .chmodBundle, fs5, r.2.1, [fs1, fs2, fs3] ++ r.2.2 ++ [fs5]⟩ else
  let fs6 := chmodExec fs5 paths.appImage
  ⟨.ok (), fs6, r.2.1, [fs1, fs2, fs3] ++ r.2.2 ++ [fs5, fs6]⟩

/-! ### Integrate (`InstallableApp.Integrate`) -/

/-- The scratch directory `path.Join(x.App.Paths.Dir, "temp")`. -/
def scratchDir (paths : AppPaths) : String := paths.dir ++ "/" ++ "temp"

/-- The bundle extractor unpacking the image into the scratch dir:
writes a file per extracted entry under the scratch directory. -/
def deflateInto (fs : FS) (td : String) (names : List String) : FS :=
  names.foldl (fun a n => setFile a (td ++ "/" ++ n) ⟨[], false⟩) fs

/-- Result of `Integrate`: outcome, final filesystem, and the number of
primitive filesystem operations performed. -/
structure IntegrateOut where
  res : Except Err Unit
  fs : FS
  fsOps : Nat
deriving DecidableEq, Repr

/-- The body of `InstallableApp.Integrate`, in source order:
`os.Mkdir(tempDir)` (fails when the path already exists), then
`core.DeflateAppImage` — whose error return happens BEFORE the
`defer os.RemoveAll(tempDir)` is registered — then `ExtractMetadata`,
`CopyIconFile`, `InstallDesktopFile`, each failure (and success) passing
through the deferred `RemoveAll` once it is registered. -/
def integrate (w : World) (paths : AppPaths) (fs0 : FS) : IntegrateOut :=
  let td := scratchDir paths
  if td ∈ fs0.dirs then ⟨.error .mkdirScratch, fs0, 0⟩ else
  let fs1 : FS := ⟨fs0.files, td :: fs0.dirs⟩
  if !w.deflateOk then ⟨.error .deflate, fs1, 1⟩ else
  let fs2 := deflateInto fs1 td w.deflatedNames
  if !w.extractOk then ⟨.error .extractMetadata, removeAllDir fs2 td, 2 + w.deflatedNames.length⟩ else
  if !w.copyIconOk then ⟨.error .copyIcon, removeAllDir fs2 td, 2 + w.deflatedNames.length⟩ else
  let fs3 := setFile fs2 paths.icon ⟨w.iconBytes, false⟩
  if !w.installDesktopOk then ⟨.error .installDesktop, removeAllDir fs3 td, 3 + w.deflatedNames.length⟩ else
  let fs4 := setFile fs3 paths.desktop ⟨w.desktopBytes, false⟩
  ⟨.ok (), removeAllDir fs4 td, 4 + w.deflatedNames.length⟩

/-! ### SaveConfig (`InstallableApp.SaveConfig`) -/

/-- Result of `SaveConfig`: outcome, final filesystem, persisted global
registry, and the number of filesystem operations performed. -/
structure SaveOut where
  res : Except Err Unit
  fs : FS
  registry : List (String × String)
  fsOps : Nat
deriving DecidableEq, Repr

/-- The body of `InstallableApp.SaveConfig`: persist the app config and
the source config (serialized bytes abstracted as empty content), read
the global config, set `Installed[id] = dir`, persist it (the registry
only changes when the final write succeeds). -/
def saveConfig (w : World) (app : AppConfig) (fs0 : FS)
    (reg : List (String × String)) : SaveOut :=
  if !w.saveAppConfigOk then ⟨.error .saveAppConfig, fs0, reg, 0⟩ else
  let fs1 := setFile fs0 app.paths.config ⟨[], false⟩
  if !w.saveSourceConfigOk then ⟨.error .saveSourceConfig, fs1, reg, 1⟩ else
  let fs2 := setFile fs1 app.paths.sourceConfig ⟨[], false⟩
  if !w.readConfigOk then ⟨.error .readConfig, fs2, reg, 2⟩ else
  if !w.saveGlobalOk then ⟨.error .saveGlobalConfig, fs2, reg, 3⟩ else
  ⟨.ok (), fs2, insertA reg app.id app.paths.dir, 3⟩

/-! ### Install (`InstallableApp.Install`) and the batch runner -/

/-- Mutable per-app state the pipeline tracks (the `Status` and
`Progress` fields of `InstallableApp`). -/
structure AppState where
  status : InstallableAppStatus
  progress : Int
deriving DecidableEq, Repr

/-- A freshly constructed `InstallableApp`'s mutable state: Go zero
values (`Status` is the zero of the int-backed enum, `Progress` is 0). -/
def freshAppState : AppState :=
  ⟨(statusOfCode 0).getD .failed, 0⟩

/-- Observable events of a batch run, tagged with the position of the
request they belong to. -/
inductive Event where
  | statusSet (idx : Nat) (s : InstallableAppStatus)
  | printed (idx : Nat)
  | registered (idx : Nat)
  | unregistered (idx : Nat)
  | fsOp (idx : Nat)
deriving DecidableEq, Repr

/-- The request position an event belongs to. -/
def Event.idx : Event → Nat
  | .statusSet i _ => i
  | .printed i => i
  | .registered i => i
  | .unregistered i => i
  | .fsOp i => i

/-- Result of `Install`: outcome, app state, filesystem, registry,
whether `SaveConfig` was invoked, the `Status` values the pipeline
itself wrote, and the emitted events. -/
structure InstallOut where
  res : Except Err Unit
  st : AppState
  fs : FS
  registry : List (String × String)
  cfgAttempted : Bool
  statusWrites : List InstallableAppStatus
  events : List Event
deriving DecidableEq, Repr

/-- The body of `InstallableApp.Install`: `Download()`, then
`x.Status = Integrating`, then `Integrate()`, then `SaveConfig()`,
each error returned immediately.  (The status ticker started and
stopped here only re-renders the status line concurrently; it mutates
no pipeline state and is not modelled.) -/
def install (idx : Nat) (w : World) (app : AppConfig) (st0 : AppState)
    (fs0 : FS) (reg0 : List (String × String)) : InstallOut :=
  let d := download w app.paths fs0 st0.progress
  let devs := d.snaps.map (fun _ => Event.fsOp idx)
  match d.res with
  | .error e => ⟨.error e, ⟨st0.status, d.progress⟩, d.fs, reg0, false, [], devs⟩
  | .ok _ =>
    let evs1 := devs ++ [Event.statusSet idx .integrating]
    let i := integrate w app.paths d.fs
    let evs2 := evs1 ++ List.replicate i.fsOps (Event.fsOp idx)
    match i.res with
    | .error e =>
        ⟨.error e, ⟨.integrating, d.progress⟩, i.fs, reg0, false, [.integrating], evs2⟩
    | .ok _ =>
      let s := saveConfig w app i.fs reg0
      let evs3 := evs2 ++ List.replicate s.fsOps (Event.fsOp idx)
      match s.res with
      | .error e =>
          ⟨.error e, ⟨.integrating, d.progress⟩, s.fs, s.registry, true, [.integrating], evs3⟩
      | .ok _ =>
          ⟨.ok (), ⟨.integrating, d.progress⟩, s.fs, s.registry, true, [.integrating], evs3⟩

/-- One install request handed to the batch runner: the resolved app,
its asset, the external-world oracles, and the caller-provided initial
`InstallableApp` state. -/
structure Request where
  app : AppConfig
  asset : Asset
  world : World
  init : AppState
deriving DecidableEq, Repr

/-- Shared batch state: the filesystem, the transaction journal and the
persisted global registry. -/
structure BatchState where
  fs : FS
  journal : List (String × PendingInstallation)
  registry : List (String × String)
deriving DecidableEq, Repr

/-- What the batch left of one request: its position, app id, whether
it was attempted, its final status and progress, and every `Status`
value written for it during the run. -/
structure AppOutcome where
  idx : Nat
  appId : String
  attempted : Bool
  status : InstallableAppStatus
  progress : Int
  statusWrites : List InstallableAppStatus
deriving DecidableEq, Repr

/-- Result of one loop iteration of `InstallApps`. -/
structure RunOut where
  ok : Bool
  bs : BatchState
  outcome : AppOutcome
  events : List Event
deriving DecidableEq, Repr

/-- The `PendingInstallation` entry `InstallApps` registers. -/
def pendingEntry (app : AppConfig) : PendingInstallation :=
  ⟨[app.paths.dir], [app.paths.desktop]⟩

/-- One iteration of the `InstallApps` loop, in source order: set
`Status = Downloading`, print, register the `PendingInstallation`
keyed by the app id, run `Install()`; on error set `Status = Failed`,
print and report failure (the journal delete is skipped by the
`break`); on success set `Status = Installed`, print, and delete the
journal entry. -/
def runOne (idx : Nat) (r : Request) (bs : BatchState) : RunOut :=
  let st0 : AppState := ⟨.downloading, r.init.progress⟩
  let evs1 : List Event := [.statusSet idx .downloading, .printed idx, .registered idx]
  let j1 := insertA bs.journal r.app.id (pendingEntry r.app)
  let out := install idx r.world r.app st0 bs.fs bs.registry
  match out.res with
  | .error _ =>
      ⟨false, ⟨out.fs, j1, out.registry⟩,
       ⟨idx, r.app.id, true, .failed, out.st.progress,
        .downloading :: (out.statusWrites ++ [.failed])⟩,
       evs1 ++ out.events ++ [.statusSet idx .failed, .printed idx]⟩
  | .ok _ =>
      ⟨true, ⟨out.fs, eraseA j1 r.app.id, out.registry⟩,
       ⟨idx, r.app.id, true, .installed, out.st.progress,
        .downloading :: (out.statusWrites ++ [.installed])⟩,
       evs1 ++ out.events ++ [.statusSet idx .installed, .printed idx, .unregistered idx]⟩

/-- Outcomes of the requests never attempted after an early stop: they
keep their caller-provided state untouched. -/
def skippedOutcomes (idx : Nat) : List Request → List AppOutcome
  | [] => []
  | r :: rest =>
      ⟨idx, r.app.id, false, r.init.status, r.init.progress, []⟩ ::
        skippedOutcomes (idx + 1) rest

/-- Result of the whole batch loop. -/
structure LoopOut where
  success : Nat
  bs : BatchState
  outs : List AppOutcome
  trace : List Event
deriving DecidableEq, Repr

/-- The `for` loop of `InstallApps`: run each request in order,
incrementing the success counter, and `break` on the first failure. -/
def installLoop (idx : Nat) : List Request → BatchState → LoopOut
  | [], bs => ⟨0, bs, [], []⟩
  | r :: rest, bs =>
      let ro := runOne idx r bs
      if ro.ok then
        let lo := installLoop (idx + 1) rest ro.bs
        ⟨lo.success + 1, lo.bs, ro.outcome :: lo.outs, ro.events ++ lo.trace⟩
      else
        ⟨0, ro.bs, ro.outcome :: skippedOutcomes (idx + 1) rest, ro.events⟩

/-- `InstallApps`: run the loop and return
`(success, count - success)` together with the run's observables. -/
def installApps (reqs : List Request) (bs : BatchState) : (Nat × Nat) × LoopOut :=
  let lo := installLoop 0 reqs bs
  ((lo.success, reqs.length - lo.success), lo)

/-! ### Sample inputs used to witness the theorems on concrete runs -/

/-- An empty filesystem. -/
def emptyFS : FS := ⟨[], []⟩

/-- An empty batch state. -/
def emptyBS : BatchState := ⟨emptyFS, [], []⟩

/-- A three-byte stream delivered in two chunks, ending at EOF. -/
def okStream : StreamBehavior := ⟨[[1, 2], [3]], true⟩

/-- A world in which every external call succeeds. -/
def okWorld : World :=
  ⟨true, true, true, true, okStream, true, true, true, ["sq"], true,
   true, [9], true, [8], true, true, true, true⟩

/-- Sample resolved paths for one app. -/
def samplePaths : AppPaths :=
  ⟨"a", "a/b.AppImage", "d/b.desktop", "a/icon.png", "a/cfg", "a/src"⟩

/-- Sample app config. -/
def sampleApp : AppConfig := ⟨"i1", "App", "v1", "github", samplePaths⟩

/-- Sample asset whose declared size matches the sample stream. -/
def sampleAsset : Asset := ⟨"b.AppImage", "u", 3⟩

/-- Sample all-succeeding install request with a fresh app state. -/
def sampleReq : Request := ⟨sampleApp, sampleAsset, okWorld, freshAppState⟩

/-- A world in which metadata extraction fails (an Integrate-stage
failure after a completed Download). -/
def extractFailWorld : World :=
  { okWorld with extractOk := false }

/-- The sample request under `extractFailWorld`. -/
def extractFailReq : Request := ⟨sampleApp, sampleAsset, extractFailWorld, freshAppState⟩

/-- A world in which the asset download stream errors immediately. -/
def downloadFailWorld : World :=
  { okWorld with assetDownloadOk := false }

/-- The sample request under `downloadFailWorld`. -/
def downloadFailReq : Request := ⟨sampleApp, sampleAsset, downloadFailWorld, freshAppState⟩

/-- A world in which the bundle extractor (`DeflateAppImage`) fails. -/
def deflateFailWorld : World :=
  { okWorld with deflateOk := false }

/-- A world whose download stream delivers three bytes and ends at EOF. -/
def shortStreamWorld : World :=
  { okWorld with stream := ⟨[[7, 7, 7]], true⟩ }

/-- An asset whose declared size disagrees with `shortStreamWorld`'s
actual stream length. -/
def sizeFiveAsset : Asset := ⟨"b.AppImage", "u", 5⟩

/-- Total number of bytes in a chunk list, as an `int64` increment. -/
def chunkTotal (cs : List (List Nat)) : Int :=
  (cs.map (fun c => (c.length : Int))).sum

/-- The status histories the spec's state machine allows an app to
traverse during a batch (empty when the app is never attempted). -/
def allowedHistory (l : List InstallableAppStatus) : Prop :=
  l = [] ∨
  l = [.downloading, .integrating, .installed] ∨
  l = [.downloading, .failed] ∨
  l = [.downloading, .integrating, .failed]

/-! ### Lemmas about the association-list and filesystem primitives -/

theorem lookupA_eraseA {β : Type} (m : List (String × β)) (k q : String) :
    lookupA (eraseA m k) q = if q = k then none else lookupA m q := by
  induction m with
  | nil => by_cases h : q = k <;> simp [lookupA, eraseA, h]
  | cons e m ih =>
      by_cases hek : e.1 = k <;> by_cases heq : e.1 = q <;> by_cases hqk : q = k <;>
        simp_all [eraseA, List.filter_cons, lookupA]

theorem lookupA_insertA {β : Type} (m : List (String × β)) (k : String) (v : β)
    (q : String) :
    lookupA (insertA m k v) q = if q = k then some v else lookupA m q := by
  by_cases hqk : q = k
  · simp [insertA, lookupA, hqk]
  · have hkq : ¬k = q := fun h => hqk h.symm
    simp [insertA, lookupA, lookupA_eraseA, hqk, hkq]

theorem lookupA_filter {β : Type} (m : List (String × β)) (p : String × β → Bool)
    (q : String) (hq : ∀ v, p (q, v) = true) :
    lookupA (m.filter p) q = lookupA m q := by
  induction m with
  | nil => rfl
  | cons e m ih =>
      by_cases heq : e.1 = q
      · have : p e = true := by
          have := hq e.2
          rwa [show (q, e.2) = e from by rw [← heq]] at this
        simp [List.filter_cons, this, lookupA, heq, ih]
      · by_cases hp : p e = true <;> simp [List.filter_cons, hp, lookupA, heq, ih]

theorem lookupA_setFile (fs : FS) (p : String) (f : FileRec) (q : String) :
    lookupA (setFile fs p f).files q = if q = p then some f else lookupA fs.files q := by
  simp [setFile, lookupA_insertA]

theorem files_mkdirAll (fs : FS) (d : String) : (mkdirAll fs d).files = fs.files := by
  by_cases h : d ∈ fs.dirs <;> simp [mkdirAll, h]

theorem lookupA_appendToFile_ne (fs : FS) (p : String) (c : List Nat) (q : String)
    (h : q ≠ p) :
    lookupA (appendToFile fs p c).files q = lookupA fs.files q := by
  unfold appendToFile
  cases lookupA fs.files p <;> simp [lookupA_setFile, h]

theorem lookupA_appendToFile_self (fs : FS) (p : String) (c cur : List Nat) (e : Bool)
    (h : lookupA fs.files p = some ⟨cur, e⟩) :
    lookupA (appendToFile fs p c).files p = some ⟨cur ++ c, e⟩ := by
  unfold appendToFile
  rw [h]
  simp [lookupA_setFile]

theorem lookupA_removeAllDir (fs : FS) (d q : String) (h : underDir d q = false) :
    lookupA (removeAllDir fs d).files q = lookupA fs.files q := by
  unfold removeAllDir
  exact lookupA_filter _ _ _ (fun v => by simp [h])

theorem lookupA_osRename_dst (fs : FS) (src dst : String) (f : FileRec)
    (h : lookupA fs.files src = some f) :
    lookupA (osRename fs src dst).files dst = some f := by
  unfold osRename
  rw [h]
  simp [lookupA_setFile]

theorem lookupA_chmodExec_self (fs : FS) (p : String) (f : FileRec)
    (h : lookupA fs.files p = some f) :
    lookupA (chmodExec fs p).files p = some ⟨f.content, true⟩ := by
  unfold chmodExec
  rw [h]
  simp [lookupA_setFile]

theorem underDir_append (td n : String) : underDir td (td ++ "/" ++ n) = true := by
  simp only [underDir, String.data_append]
  exact List.isPrefixOf_iff_prefix.mpr ⟨n.data, rfl⟩

theorem lookupA_deflateInto_ne (fs : FS) (td : String) (names : List String)
    (q : String) (h : underDir td q = false) :
    lookupA (deflateInto fs td names).files q = lookupA fs.files q := by
  induction names generalizing fs with
  | nil => rfl
  | cons n ns ih =>
      have hq : q ≠ td ++ "/" ++ n := by
        intro hc
        rw [hc] at h
        rw [underDir_append] at h
        exact absurd h (by decide)
      simp only [deflateInto, List.foldl_cons] at ih ⊢
      rw [ih, lookupA_setFile]
      simp [hq]

theorem tempPath_ne (p : String) : tempPath p ≠ p := by
  intro h
  have h2 := congrArg String.length h
  have h4 : (".tmp" : String).length = 4 := rfl
  rw [tempPath, String.length_append, h4] at h2
  omega

theorem copyChunks_progress (tp : String) (cs : List (List Nat)) (fs : FS) (prog : Int) :
    (copyChunks tp cs fs prog).2.1 = prog + chunkTotal cs := by
  induction cs generalizing fs prog with
  | nil => simp [copyChunks, chunkTotal]
  | cons c cs ih =>
      simp only [copyChunks, ih, chunkTotal, List.map_cons, List.sum_cons]
      ring

theorem copyChunks_fs_lookup_ne (tp : String) (cs : List (List Nat)) (fs : FS)
    (prog : Int) (q : String) (h : q ≠ tp) :
    lookupA (copyChunks tp cs fs prog).1.files q = lookupA fs.files q := by
  induction cs generalizing fs prog with
  | nil => rfl
  | cons c cs ih =>
      simp only [copyChunks]
      rw [ih, lookupA_appendToFile_ne _ _ _ _ h]

theorem copyChunks_snaps_lookup_ne (tp : String) (cs : List (List Nat)) (fs : FS)
    (prog : Int) (q : String) (h : q ≠ tp) :
    ∀ fs' ∈ (copyChunks tp cs fs prog).2.2, lookupA fs'.files q = lookupA fs.files q := by
  induction cs generalizing fs prog with
  | nil => intro fs' hm; simp [copyChunks] at hm
  | cons c cs ih =>
      intro fs' hm
      simp only [copyChunks, List.mem_cons] at hm
      rcases hm with hm | hm
      · rw [hm, lookupA_appendToFile_ne _ _ _ _ h]
      · rw [ih _ _ _ hm, lookupA_appendToFile_ne _ _ _ _ h]

theorem copyChunks_content (tp : String) (cs : List (List Nat)) (fs : FS)
    (prog : Int) (cur : List Nat) (e : Bool)
    (h : lookupA fs.files tp = some ⟨cur, e⟩) :
    lookupA (copyChunks tp cs fs prog).1.files tp = some ⟨cur ++ cs.flatten, e⟩ := by
  induction cs generalizing fs prog cur with
  | nil => simpa [copyChunks] using h
  | cons c cs ih =>
      simp only [copyChunks, List.flatten_cons]
      rw [ih _ _ _ (lookupA_appendToFile_self _ _ _ _ _ h), List.append_assoc]

theorem download_ok_bools (w : World) (paths : AppPaths) (fs0 : FS) (p0 : Int)
    (h : (download w paths fs0 p0).res = .ok ()) :
    w.mkdirDirOk = true ∧ w.mkdirDesktopOk = true ∧ w.createTempOk = true ∧
    w.assetDownloadOk = true ∧ w.stream.copyOk = true ∧ w.renameOk = true ∧
    w.chmodOk = true := by
  unfold download at h
  cases h1 : w.mkdirDirOk <;> (try rw [h1] at h)
  · simp at h
  simp only [Bool.not_true, Bool.false_eq_true, if_false] at h
  cases h2 : w.mkdirDesktopOk <;> (try rw [h2] at h)
  · simp at h
  simp only [Bool.not_true, Bool.false_eq_true, if_false] at h
  cases h3 : w.createTempOk <;> (try rw [h3] at h)
  · simp at h
  simp only [Bool.not_true, Bool.false_eq_true, if_false] at h
  cases h4 : w.assetDownloadOk <;> (try rw [h4] at h)
  · simp at h
  simp only [Bool.not_true, Bool.false_eq_true, if_false] at h
  cases h5 : w.stream.copyOk <;> (try rw [h5] at h)
  · simp at h
  simp only [Bool.not_true, Bool.false_eq_true, if_false] at h
  cases h6 : w.renameOk <;> (try rw [h6] at h)
  · simp at h
  simp only [Bool.not_true, Bool.false_eq_true, if_false] at h
  cases h7 : w.chmodOk <;> (try rw [h7] at h)
  · simp at h
  exact ⟨rfl, rfl, rfl, rfl, rfl, rfl, rfl⟩

theorem download_ok_eq (w : World) (paths : AppPaths) (fs0 : FS) (p0 : Int)
    (h : (download w paths fs0 p0).res = .ok ()) :
    download w paths fs0 p0 =
      (let fs3 := setFile (mkdirAll (mkdirAll fs0 paths.dir) (parentDir paths.desktop))
          (tempPath paths.appImage) ⟨[], false⟩
       let r := copyChunks (tempPath paths.appImage) w.stream.chunks fs3 p0
       let fs5 := osRename r.1 (tempPath paths.appImage) paths.appImage
       let fs6 := chmodExec fs5 paths.appImage
       ⟨.ok (), fs6, r.2.1,
        [mkdirAll fs0 paths.dir,
         mkdirAll (mkdirAll fs0 paths.dir) (parentDir paths.desktop), fs3]
          ++ r.2.2 ++ [fs5, fs6]⟩) := by
  obtain ⟨h1, h2, h3, h4, h5, h6, h7⟩ := download_ok_bools w paths fs0 p0 h
  simp [download, h1, h2, h3, h4, h5, h6, h7]

theorem download_ok_final (w : World) (paths : AppPaths) (fs0 : FS) (p0 : Int)
    (h : (download w paths fs0 p0).res = .ok ()) :
    lookupA (download w paths fs0 p0).fs.files paths.appImage =
      some ⟨w.stream.chunks.flatten, true⟩ := by
  rw [download_ok_eq w paths fs0 p0 h]
  have htp : lookupA (setFile (mkdirAll (mkdirAll fs0 paths.dir) (parentDir paths.desktop))
      (tempPath paths.appImage) ⟨[], false⟩).files (tempPath paths.appImage) =
      some ⟨[], false⟩ := by
    simp [lookupA_setFile]
  have hc := copyChunks_content (tempPath paths.appImage) w.stream.chunks _ p0 [] false htp
  rw [List.nil_append] at hc
  have hr := lookupA_osRename_dst _ (tempPath paths.appImage) paths.appImage _ hc
  exact lookupA_chmodExec_self _ _ _ hr

theorem download_ok_progress (w : World) (paths : AppPaths) (fs0 : FS) (p0 : Int)
    (h : (download w paths fs0 p0).res = .ok ()) :
    (download w paths fs0 p0).progress = p0 + chunkTotal w.stream.chunks := by
  rw [download_ok_eq w paths fs0 p0 h]
  exact copyChunks_progress _ _ _ _

theorem download_snaps_lookup (w : World) (paths : AppPaths) (fs0 : FS) (p0 : Int)
    (h0 : lookupA fs0.files paths.appImage = none) :
    ∀ fs' ∈ (download w paths fs0 p0).snaps, ∀ f,
      lookupA fs'.files paths.appImage = some f →
      f.content = w.stream.chunks.flatten := by
  have hq : paths.appImage ≠ tempPath paths.appImage := Ne.symm (tempPath_ne _)
  have hfs1 : lookupA (mkdirAll fs0 paths.dir).files paths.appImage = none := by
    rw [files_mkdirAll]; exact h0
  have hfs2 : lookupA (mkdirAll (mkdirAll fs0 paths.dir) (parentDir paths.desktop)).files
      paths.appImage = none := by
    rw [files_mkdirAll]; exact hfs1
  have hfs3 : lookupA (setFile (mkdirAll (mkdirAll fs0 paths.dir) (parentDir paths.desktop))
      (tempPath paths.appImage) ⟨[], false⟩).files paths.appImage = none := by
    rw [lookupA_setFile, if_neg hq]; exact hfs2
  have htp : lookupA (setFile (mkdirAll (mkdirAll fs0 paths.dir) (parentDir paths.desktop))
      (tempPath paths.appImage) ⟨[], false⟩).files (tempPath paths.appImage) =
      some ⟨[], false⟩ := by
    simp [lookupA_setFile]
  have hsnap : ∀ fs' ∈ (copyChunks (tempPath paths.appImage) w.stream.chunks
      (setFile (mkdirAll (mkdirAll fs0 paths.dir) (parentDir paths.desktop))
        (tempPath paths.appImage) ⟨[], false⟩) p0).2.2,
      lookupA fs'.files paths.appImage = none := fun fs' hm =>
    (copyChunks_snaps_lookup_ne _ _ _ _ _ hq fs' hm).trans hfs3
  have hcc := copyChunks_content (tempPath paths.appImage) w.stream.chunks
    (setFile (mkdirAll (mkdirAll fs0 paths.dir) (parentDir paths.desktop))
      (tempPath paths.appImage) ⟨[], false⟩) p0 [] false htp
  rw [List.nil_append] at hcc
  have hfs5 : lookupA (osRename (copyChunks (tempPath paths.appImage) w.stream.chunks
      (setFile (mkdirAll (mkdirAll fs0 paths.dir) (parentDir paths.desktop))
        (tempPath paths.appImage) ⟨[], false⟩) p0).1 (tempPath paths.appImage)
      paths.appImage).files paths.appImage = some ⟨w.stream.chunks.flatten, false⟩ :=
    lookupA_osRename_dst _ _ _ _ hcc
  have hfs6 := lookupA_chmodExec_self _ paths.appImage _ hfs5
  unfold download
  cases h1 : w.mkdirDirOk
  · simp
  cases h2 : w.mkdirDesktopOk
  · intro fs' hm f hf
    simp only [Bool.not_true, Bool.false_eq_true, if_false, Bool.not_false, if_true,
      List.mem_singleton] at hm
    rw [hm, hfs1] at hf
    cases hf
  cases h3 : w.createTempOk
  · intro fs' hm f hf
    simp only [Bool.not_true, Bool.false_eq_true, if_false, Bool.not_false, if_true,
      List.mem_cons, List.not_mem_nil, or_false] at hm
    rcases hm with hm | hm <;> rw [hm] at hf
    · rw [hfs1] at hf; cases hf
    · rw [hfs2] at hf; cases hf
  cases h4 : w.assetDownloadOk
  · intro fs' hm f hf
    simp only [Bool.not_true, Bool.false_eq_true, if_false, Bool.not_false, if_true,
      List.mem_cons, List.not_mem_nil, or_false] at hm
    rcases hm with hm | hm | hm <;> rw [hm] at hf
    · rw [hfs1] at hf; cases hf
    · rw [hfs2] at hf; cases hf
    · rw [hfs3] at hf; cases hf
  cases h5 : w.stream.copyOk
  · intro fs' hm f hf
    simp only [Bool.not_true, Bool.false_eq_true, if_false, Bool.not_false, if_true,
      List.mem_append, List.mem_cons, List.not_mem_nil, or_false] at hm
    rcases hm with (hm | hm | hm) | hm
    · rw [hm, hfs1] at hf; cases hf
    · rw [hm, hfs2] at hf; cases hf
    · rw [hm, hfs3] at hf; cases hf
    · rw [hsnap fs' hm] at hf; cases hf
  cases h6 : w.renameOk
  · intro fs' hm f hf
    simp only [Bool.not_true, Bool.false_eq_true, if_false, Bool.not_false, if_true,
      List.mem_append, List.mem_cons, List.not_mem_nil, or_false] at hm
    rcases hm with (hm | hm | hm) | hm
    · rw [hm, hfs1] at hf; cases hf
    · rw [hm, hfs2] at hf; cases hf
    · rw [hm, hfs3] at hf; cases hf
    · rw [hsnap fs' hm] at hf; cases hf
  cases h7 : w.chmodOk
  · intro fs' hm f hf
    simp only [Bool.not_true, Bool.false_eq_true, if_false, Bool.not_false, if_true,
      List.mem_append, List.mem_cons, List.not_mem_nil, or_false] at hm
    rcases hm with ((hm | hm | hm) | hm) | hm
    · rw [hm, hfs1] at hf; cases hf
    · rw [hm, hfs2] at hf; cases hf
    · rw [hm, hfs3] at hf; cases hf
    · rw [hsnap fs' hm] at hf; cases hf
    · rw [hm, hfs5] at hf; cases hf; rfl
  · intro fs' hm f hf
    simp only [Bool.not_true, Bool.false_eq_true, if_false, Bool.not_false, if_true,
      List.mem_append, List.mem_cons, List.not_mem_nil, or_false] at hm
    rcases hm with ((hm | hm | hm) | hm) | hm | hm
    · rw [hm, hfs1] at hf; cases hf
    · rw [hm, hfs2] at hf; cases hf
    · rw [hm, hfs3] at hf; cases hf
    · rw [hsnap fs' hm] at hf; cases hf
    · rw [hm, hfs5] at hf; cases hf; rfl
    · rw [hm, hfs6] at hf; cases hf; rfl

/-- C1: Download never exposes a partially written bundle at the final
bundle path: the asset's bytes go to a colocated temporary file distinct
from the final path; every intermediate filesystem state of Download has
either no file or the complete downloaded content at the final path; and
on success the final path holds the complete content, marked executable,
put there by the rename. -/
theorem download_atomic_final_path (w : World) (paths : AppPaths) (fs0 : FS) (p0 : Int)
    (h0 : lookupA fs0.files paths.appImage = none) :
    tempPath paths.appImage ≠ paths.appImage ∧
    (∀ fs' ∈ (download w paths fs0 p0).snaps, ∀ f,
        lookupA fs'.files paths.appImage = some f →
        f.content = w.stream.chunks.flatten) ∧
    ((download w paths fs0 p0).res = .ok () →
      lookupA (download w paths fs0 p0).fs.files paths.appImage =
        some ⟨w.stream.chunks.flatten, true⟩) :=
  ⟨tempPath_ne _, download_snaps_lookup w paths fs0 p0 h0, download_ok_final w paths fs0 p0⟩

/-- Witness for C1 on a concrete run: the initial filesystem holds no
file at the final bundle path, and the conclusions follow. -/
theorem download_atomic_final_path_witness :
    lookupA emptyFS.files samplePaths.appImage = none ∧
    (tempPath samplePaths.appImage ≠ samplePaths.appImage ∧
     (∀ fs' ∈ (download okWorld samplePaths emptyFS 0).snaps, ∀ f,
         lookupA fs'.files samplePaths.appImage = some f →
         f.content = okWorld.stream.chunks.flatten) ∧
     ((download okWorld samplePaths emptyFS 0).res = .ok () →
       lookupA (download okWorld samplePaths emptyFS 0).fs.files samplePaths.appImage =
         some ⟨okWorld.stream.chunks.flatten, true⟩)) :=
  ⟨by decide, download_atomic_final_path okWorld samplePaths emptyFS 0 (by decide)⟩

/-! ### Lemmas about Integrate and SaveConfig -/

theorem integrate_err_lookup (w : World) (paths : AppPaths) (fs0 : FS) (q : String)
    (e : Err) (h : (integrate w paths fs0).res = .error e)
    (hq : underDir (scratchDir paths) q = false) (hicon : q ≠ paths.icon) :
    lookupA (integrate w paths fs0).fs.files q = lookupA fs0.files q := by
  unfold integrate at h ⊢
  by_cases htd : scratchDir paths ∈ fs0.dirs
  · simp [htd]
  · simp only [if_neg htd] at h ⊢
    cases hdf : w.deflateOk
    · simp [hdf]
    · cases hex : w.extractOk
      · simp [hdf, hex, lookupA_removeAllDir, lookupA_deflateInto_ne, hq]
      · cases hci : w.copyIconOk
        · simp [hdf, hex, hci, lookupA_removeAllDir, lookupA_deflateInto_ne, hq]
        · cases hid : w.installDesktopOk
          · simp [hdf, hex, hci, hid, lookupA_removeAllDir, lookupA_setFile,
              lookupA_deflateInto_ne, hq, hicon]
          · simp [hdf, hex, hci, hid] at h

theorem download_err_stage (w : World) (paths : AppPaths) (fs0 : FS) (p0 : Int)
    (e : Err) (h : (download w paths fs0 p0).res = .error e) :
    e.stage = .download := by
  unfold download at h
  cases h1 : w.mkdirDirOk
  · simp [h1] at h; subst h; rfl
  · cases h2 : w.mkdirDesktopOk
    · simp [h1, h2] at h; subst h; rfl
    · cases h3 : w.createTempOk
      · simp [h1, h2, h3] at h; subst h; rfl
      · cases h4 : w.assetDownloadOk
        · simp [h1, h2, h3, h4] at h; subst h; rfl
        · cases h5 : w.stream.copyOk
          · simp [h1, h2, h3, h4, h5] at h; subst h; rfl
          · cases h6 : w.renameOk
            · simp [h1, h2, h3, h4, h5, h6] at h; subst h; rfl
            · cases h7 : w.chmodOk
              · simp [h1, h2, h3, h4, h5, h6, h7] at h; subst h; rfl
              · simp [h1, h2, h3, h4, h5, h6, h7] at h

theorem integrate_err_stage (w : World) (paths : AppPaths) (fs0 : FS)
    (e : Err) (h : (integrate w paths fs0).res = .error e) :
    e.stage = .integrate := by
  unfold integrate at h
  by_cases htd : scratchDir paths ∈ fs0.dirs
  · rw [if_pos htd] at h
    simp at h; subst h; rfl
  · simp only [if_neg htd] at h
    cases hdf : w.deflateOk
    · simp [hdf] at h; subst h; rfl
    · cases hex : w.extractOk
      · simp [hdf, hex] at h; subst h; rfl
      · cases hci : w.copyIconOk
        · simp [hdf, hex, hci] at h; subst h; rfl
        · cases hid : w.installDesktopOk
          · simp [hdf, hex, hci, hid] at h; subst h; rfl
          · simp [hdf, hex, hci, hid] at h

theorem saveConfig_err_stage (w : World) (app : AppConfig) (fs0 : FS)
    (reg : List (String × String)) (e : Err)
    (h : (saveConfig w app fs0 reg).res = .error e) :
    e.stage = .persist := by
  unfold saveConfig at h
  cases h1 : w.saveAppConfigOk
  · simp [h1] at h; subst h; rfl
  · cases h2 : w.saveSourceConfigOk
    · simp [h1, h2] at h; subst h; rfl
    · cases h3 : w.readConfigOk
      · simp [h1, h2, h3] at h; subst h; rfl
      · cases h4 : w.saveGlobalOk
        · simp [h1, h2, h3, h4] at h; subst h; rfl
        · simp [h1, h2, h3, h4] at h

/-! ### Lemmas about Install -/

theorem install_err_cfg (idx : Nat) (w : World) (app : AppConfig) (st0 : AppState)
    (fs0 : FS) (reg0 : List (String × String)) (e : Err)
    (h : (install idx w app st0 fs0 reg0).res = .error e) (hst : e.stage ≠ .persist) :
    (install idx w app st0 fs0 reg0).cfgAttempted = false := by
  simp only [install] at h ⊢
  cases hd : (download w app.paths fs0 st0.progress).res with
  | error e1 => simp [hd]
  | ok u =>
      cases u
      simp only [hd] at h ⊢
      cases hi : (integrate w app.paths (download w app.paths fs0 st0.progress).fs).res with
      | error e2 => simp [hi]
      | ok v =>
          cases v
          simp only [hi] at h ⊢
          cases hs : (saveConfig w app
              (integrate w app.paths (download w app.paths fs0 st0.progress).fs).fs
              reg0).res with
          | error e3 =>
              simp only [hs] at h
              simp at h
              subst h
              exact absurd (saveConfig_err_stage _ _ _ _ _ hs) hst
          | ok z =>
              simp only [hs] at h
              simp at h

theorem install_ok_statusWrites (idx : Nat) (w : World) (app : AppConfig)
    (st0 : AppState) (fs0 : FS) (reg0 : List (String × String))
    (h : (install idx w app st0 fs0 reg0).res = .ok ()) :
    (install idx w app st0 fs0 reg0).statusWrites = [.integrating] := by
  simp only [install] at h ⊢
  cases hd : (download w app.paths fs0 st0.progress).res with
  | error e1 => simp [hd] at h
  | ok u =>
      cases u
      simp only [hd] at h ⊢
      cases hi : (integrate w app.paths (download w app.paths fs0 st0.progress).fs).res with
      | error e2 => simp [hi] at h
      | ok v =>
          cases v
          simp only [hi] at h ⊢
          cases hs : (saveConfig w app
              (integrate w app.paths (download w app.paths fs0 st0.progress).fs).fs
              reg0).res with
          | error e3 => simp [hs]
          | ok z => simp [hs]

theorem install_statusWrites_cases (idx : Nat) (w : World) (app : AppConfig)
    (st0 : AppState) (fs0 : FS) (reg0 : List (String × String)) :
    (install idx w app st0 fs0 reg0).statusWrites = [] ∨
    (install idx w app st0 fs0 reg0).statusWrites = [.integrating] := by
  simp only [install]
  cases hd : (download w app.paths fs0 st0.progress).res with
  | error e1 => simp [hd]
  | ok u =>
      cases u
      cases hi : (integrate w app.paths (download w app.paths fs0 st0.progress).fs).res with
      | error e2 => simp [hi]
      | ok v =>
          cases v
          cases hs : (saveConfig w app
              (integrate w app.paths (download w app.paths fs0 st0.progress).fs).fs
              reg0).res with
          | error e3 => simp [hs]
          | ok z => simp [hs]

theorem install_events_idx (idx : Nat) (w : World) (app : AppConfig)
    (st0 : AppState) (fs0 : FS) (reg0 : List (String × String)) :
    ∀ ev ∈ (install idx w app st0 fs0 reg0).events, ev.idx = idx := by
  simp only [install]
  cases hd : (download w app.paths fs0 st0.progress).res with
  | error e1 =>
      intro ev hm
      simp only [List.mem_map] at hm
      obtain ⟨x, _, rfl⟩ := hm
      rfl
  | ok u =>
      cases u
      cases hi : (integrate w app.paths (download w app.paths fs0 st0.progress).fs).res with
      | error e2 =>
          intro ev hm
          simp only [List.mem_append, List.mem_map, List.mem_singleton,
            List.mem_replicate] at hm
          rcases hm with (⟨x, _, rfl⟩ | rfl) | ⟨_, rfl⟩ <;> rfl
      | ok v =>
          cases v
          cases hs : (saveConfig w app
              (integrate w app.paths (download w app.paths fs0 st0.progress).fs).fs
              reg0).res with
          | error e3 =>
              intro ev hm
              simp only [List.mem_append, List.mem_map, List.mem_singleton,
                List.mem_replicate] at hm
              rcases hm with ((⟨x, _, rfl⟩ | rfl) | ⟨_, rfl⟩) | ⟨_, rfl⟩ <;> rfl
          | ok z =>
              intro ev hm
              simp only [List.mem_append, List.mem_map, List.mem_singleton,
                List.mem_replicate] at hm
              rcases hm with ((⟨x, _, rfl⟩ | rfl) | ⟨_, rfl⟩) | ⟨_, rfl⟩ <;> rfl

theorem install_err_integrate_fs (idx : Nat) (w : World) (app : AppConfig)
    (st0 : AppState) (fs0 : FS) (reg0 : List (String × String)) (e : Err)
    (h : (install idx w app st0 fs0 reg0).res = .error e) (hst : e.stage = .integrate)
    (hq : underDir (scratchDir app.paths) app.paths.appImage = false)
    (hicon : app.paths.appImage ≠ app.paths.icon) :
    lookupA (install idx w app st0 fs0 reg0).fs.files app.paths.appImage =
      some ⟨w.stream.chunks.flatten, true⟩ := by
  simp only [install] at h ⊢
  cases hd : (download w app.paths fs0 st0.progress).res with
  | error e1 =>
      simp only [hd] at h
      simp at h
      subst h
      exact absurd (download_err_stage _ _ _ _ _ hd) (by rw [hst]; intro hc; cases hc)
  | ok u =>
      cases u
      simp only [hd] at h ⊢
      cases hi : (integrate w app.paths (download w app.paths fs0 st0.progress).fs).res with
      | error e2 =>
          simp only [hi] at h ⊢
          simp at h ⊢
          rw [integrate_err_lookup _ _ _ _ _ hi hq hicon]
          exact download_ok_final _ _ _ _ hd
      | ok v =>
          cases v
          simp only [hi] at h ⊢
          cases hs : (saveConfig w app
              (integrate w app.paths (download w app.paths fs0 st0.progress).fs).fs
              reg0).res with
          | error e3 =>
              simp only [hs] at h
              simp at h
              subst h
              have := saveConfig_err_stage _ _ _ _ _ hs
              rw [hst] at this
              cases this
          | ok z =>
              simp only [hs] at h
              simp at h

/-! ### Lemmas about one batch iteration and the loop -/

theorem runOne_attempted (idx : Nat) (r : Request) (bs : BatchState) :
    (runOne idx r bs).outcome.attempted = true := by
  simp only [runOne]
  cases h : (install idx r.world r.app ⟨.downloading, r.init.progress⟩ bs.fs bs.registry).res with
  | error e => simp [h]
  | ok u => cases u; simp [h]

theorem runOne_fs (idx : Nat) (r : Request) (bs : BatchState) :
    (runOne idx r bs).bs.fs =
      (install idx r.world r.app ⟨.downloading, r.init.progress⟩ bs.fs bs.registry).fs := by
  simp only [runOne]
  cases h : (install idx r.world r.app ⟨.downloading, r.init.progress⟩ bs.fs bs.registry).res with
  | error e => simp [h]
  | ok u => cases u; simp [h]

theorem runOne_ok_iff (idx : Nat) (r : Request) (bs : BatchState) :
    (runOne idx r bs).ok = true ↔
      (install idx r.world r.app ⟨.downloading, r.init.progress⟩ bs.fs bs.registry).res =
        .ok () := by
  simp only [runOne]
  cases h : (install idx r.world r.app ⟨.downloading, r.init.progress⟩ bs.fs bs.registry).res with
  | error e => simp [h]
  | ok u => cases u; simp [h]

theorem runOne_fail_journal (idx : Nat) (r : Request) (bs : BatchState) (e : Err)
    (h : (install idx r.world r.app ⟨.downloading, r.init.progress⟩ bs.fs bs.registry).res =
      .error e) :
    (runOne idx r bs).bs.journal = insertA bs.journal r.app.id (pendingEntry r.app) := by
  simp only [runOne]
  simp [h]

theorem runOne_ok_journal (idx : Nat) (r : Request) (bs : BatchState)
    (h : (runOne idx r bs).ok = true) :
    lookupA (runOne idx r bs).bs.journal r.app.id = none := by
  rw [runOne_ok_iff] at h
  simp only [runOne]
  simp [h, lookupA_eraseA]

theorem runOne_status_fail (idx : Nat) (r : Request) (bs : BatchState)
    (h : (runOne idx r bs).ok = false) :
    (runOne idx r bs).outcome.status = .failed := by
  revert h
  simp only [runOne]
  cases h : (install idx r.world r.app ⟨.downloading, r.init.progress⟩ bs.fs bs.registry).res with
  | error e => simp [h]
  | ok u => cases u; simp [h]

theorem runOne_status_ok (idx : Nat) (r : Request) (bs : BatchState)
    (h : (runOne idx r bs).ok = true) :
    (runOne idx r bs).outcome.status = .installed := by
  revert h
  simp only [runOne]
  cases h : (install idx r.world r.app ⟨.downloading, r.init.progress⟩ bs.fs bs.registry).res with
  | error e => simp [h]
  | ok u => cases u; simp [h]

theorem runOne_history (idx : Nat) (r : Request) (bs : BatchState) :
    (runOne idx r bs).outcome.statusWrites = [.downloading, .integrating, .installed] ∨
    (runOne idx r bs).outcome.statusWrites = [.downloading, .failed] ∨
    (runOne idx r bs).outcome.statusWrites = [.downloading, .integrating, .failed] := by
  simp only [runOne]
  cases h : (install idx r.world r.app ⟨.downloading, r.init.progress⟩ bs.fs bs.registry).res with
  | error e =>
      rcases install_statusWrites_cases idx r.world r.app ⟨.downloading, r.init.progress⟩
          bs.fs bs.registry with hw | hw <;> simp [h, hw]
  | ok u =>
      cases u
      have hw := install_ok_statusWrites idx r.world r.app ⟨.downloading, r.init.progress⟩
        bs.fs bs.registry h
      simp [h, hw]

theorem runOne_statusWrites_head (idx : Nat) (r : Request) (bs : BatchState) :
    (runOne idx r bs).outcome.statusWrites.head? = some .downloading := by
  simp only [runOne]
  cases h : (install idx r.world r.app ⟨.downloading, r.init.progress⟩ bs.fs bs.registry).res with
  | error e => simp [h]
  | ok u => cases u; simp [h]

theorem runOne_events_idx (idx : Nat) (r : Request) (bs : BatchState) :
    ∀ ev ∈ (runOne idx r bs).events, ev.idx = idx := by
  have hin := install_events_idx idx r.world r.app ⟨.downloading, r.init.progress⟩
    bs.fs bs.registry
  simp only [runOne]
  cases h : (install idx r.world r.app ⟨.downloading, r.init.progress⟩ bs.fs bs.registry).res with
  | error e =>
      intro ev hm
      simp only [h, List.cons_append, List.nil_append, List.mem_cons,
        List.mem_append, List.mem_singleton, List.not_mem_nil, or_false] at hm
      rcases hm with rfl | rfl | rfl | hm | rfl | rfl
      · rfl
      · rfl
      · rfl
      · exact hin ev hm
      · rfl
      · rfl
  | ok u =>
      cases u
      intro ev hm
      simp only [h, List.cons_append, List.nil_append, List.mem_cons,
        List.mem_append, List.mem_singleton, List.not_mem_nil, or_false] at hm
      rcases hm with rfl | rfl | rfl | hm | rfl | rfl | rfl
      · rfl
      · rfl
      · rfl
      · exact hin ev hm
      · rfl
      · rfl
      · rfl

theorem runOne_events_head (idx : Nat) (r : Request) (bs : BatchState) :
    ∃ X, (runOne idx r bs).events =
      .statusSet idx .downloading :: .printed idx :: .registered idx :: X := by
  simp only [runOne]
  cases h : (install idx r.world r.app ⟨.downloading, r.init.progress⟩ bs.fs bs.registry).res with
  | error e =>
      exact ⟨(install idx r.world r.app ⟨.downloading, r.init.progress⟩
          bs.fs bs.registry).events ++ [.statusSet idx .failed, .printed idx],
        by simp [h]⟩
  | ok u =>
      cases u
      exact ⟨(install idx r.world r.app ⟨.downloading, r.init.progress⟩
          bs.fs bs.registry).events ++
          [.statusSet idx .installed, .printed idx, .unregistered idx],
        by simp [h]⟩

theorem installLoop_cons_ok (idx : Nat) (r : Request) (rest : List Request)
    (bs : BatchState) (h : (runOne idx r bs).ok = true) :
    installLoop idx (r :: rest) bs =
      ⟨(installLoop (idx + 1) rest (runOne idx r bs).bs).success + 1,
       (installLoop (idx + 1) rest (runOne idx r bs).bs).bs,
       (runOne idx r bs).outcome :: (installLoop (idx + 1) rest (runOne idx r bs).bs).outs,
       (runOne idx r bs).events ++ (installLoop (idx + 1) rest (runOne idx r bs).bs).trace⟩ := by
  simp [installLoop, h]

theorem installLoop_cons_fail (idx : Nat) (r : Request) (rest : List Request)
    (bs : BatchState) (h : (runOne idx r bs).ok = false) :
    installLoop idx (r :: rest) bs =
      ⟨0, (runOne idx r bs).bs,
       (runOne idx r bs).outcome :: skippedOutcomes (idx + 1) rest,
       (runOne idx r bs).events⟩ := by
  simp [installLoop, h]

theorem skippedOutcomes_get (rest : List Request) :
    ∀ (idx j : Nat), (skippedOutcomes idx rest).get? j =
      (rest.get? j).map
        (fun r => ⟨idx + j, r.app.id, false, r.init.status, r.init.progress, []⟩) := by
  induction rest with
  | nil => intro idx j; simp [skippedOutcomes]
  | cons r rest ih =>
      intro idx j
      cases j with
      | zero => simp [skippedOutcomes]
      | succ j =>
          simp only [skippedOutcomes, List.get?_cons_succ, ih (idx + 1) j]
          cases rest.get? j <;> simp [Nat.add_assoc, Nat.add_comm 1 j]

theorem installLoop_outs_length (reqs : List Request) :
    ∀ (idx : Nat) (bs : BatchState),
      (installLoop idx reqs bs).outs.length = reqs.length := by
  induction reqs with
  | nil => intro idx bs; rfl
  | cons r rest ih =>
      intro idx bs
      cases h : (runOne idx r bs).ok
      · rw [installLoop_cons_fail idx r rest bs h]
        simp only [List.length_cons]
        clear h ih
        induction rest generalizing idx with
        | nil => rfl
        | cons x xs ihs => simp [skippedOutcomes, ihs]
      · rw [installLoop_cons_ok idx r rest bs h]
        simp [ih]

theorem skippedOutcomes_props (rest : List Request) :
    ∀ (idx : Nat) (o : AppOutcome), o ∈ skippedOutcomes idx rest →
      o.attempted = false ∧ o.statusWrites = [] ∧
      ∃ r, r ∈ rest ∧ o.status = r.init.status := by
  induction rest with
  | nil => intro idx o hm; simp [skippedOutcomes] at hm
  | cons r rest ih =>
      intro idx o hm
      simp only [skippedOutcomes, List.mem_cons] at hm
      rcases hm with rfl | hm
      · exact ⟨rfl, rfl, r, List.mem_cons_self r rest, rfl⟩
      · obtain ⟨h1, h2, r', hr', h3⟩ := ih (idx + 1) o hm
        exact ⟨h1, h2, r', List.mem_cons_of_mem r hr', h3⟩

theorem installLoop_register_first (reqs : List Request) :
    ∀ (idx : Nat) (bs : BatchState) (j : Nat) (o : AppOutcome),
      (installLoop idx reqs bs).outs.get? j = some o → o.attempted = true →
      ∃ pre post,
        (installLoop idx reqs bs).trace = pre ++ Event.registered (idx + j) :: post ∧
        ∀ ev ∈ pre, ev ≠ Event.fsOp (idx + j) := by
  induction reqs with
  | nil => intro idx bs j o h ho; simp [installLoop] at h
  | cons r rest ih =>
      intro idx bs j o h ho
      cases hok : (runOne idx r bs).ok
      · rw [installLoop_cons_fail idx r rest bs hok] at h ⊢
        cases j with
        | zero =>
            obtain ⟨X, hX⟩ := runOne_events_head idx r bs
            refine ⟨[.statusSet idx .downloading, .printed idx], X, ?_, ?_⟩
            · dsimp only
              rw [hX]
              simp
            · intro ev hm
              simp only [List.mem_cons, List.not_mem_nil, or_false] at hm
              rcases hm with rfl | rfl
              · intro hc; cases hc
              · intro hc; cases hc
        | succ j =>
            simp only [List.get?_cons_succ] at h
            rw [skippedOutcomes_get rest (idx + 1) j] at h
            cases hr : rest.get? j with
            | none => rw [hr] at h; cases h
            | some r' =>
                rw [hr] at h
                simp only [Option.map_some', Option.some.injEq] at h
                rw [← h] at ho
                simp at ho
      · rw [installLoop_cons_ok idx r rest bs hok] at h ⊢
        cases j with
        | zero =>
            obtain ⟨X, hX⟩ := runOne_events_head idx r bs
            refine ⟨[.statusSet idx .downloading, .printed idx],
              X ++ (installLoop (idx + 1) rest (runOne idx r bs).bs).trace, ?_, ?_⟩
            · dsimp only
              rw [hX]
              simp
            · intro ev hm
              simp only [List.mem_cons, List.not_mem_nil, or_false] at hm
              rcases hm with rfl | rfl
              · intro hc; cases hc
              · intro hc; cases hc
        | succ j =>
            simp only [List.get?_cons_succ] at h
            obtain ⟨pre, post, htr, hpre⟩ :=
              ih (idx + 1) (runOne idx r bs).bs j o h ho
            have hidx : idx + 1 + j = idx + (j + 1) := by omega
            rw [hidx] at htr hpre
            refine ⟨(runOne idx r bs).events ++ pre, post, ?_, ?_⟩
            · rw [htr, List.append_assoc]
            · intro ev hm
              rcases List.mem_append.mp hm with hm | hm
              · have hev := runOne_events_idx idx r bs ev hm
                intro hc
                rw [hc] at hev
                simp only [Event.idx] at hev
                omega
              · exact hpre ev hm

theorem installLoop_first_fail (reqs : List Request) :
    ∀ (idx : Nat) (bs : BatchState) (k : Nat),
      1 ≤ k → k ≤ reqs.length →
      (∀ j, j < k - 1 →
        ((installLoop idx reqs bs).outs.get? j).map AppOutcome.status =
          some .installed) →
      ((installLoop idx reqs bs).outs.get? (k - 1)).map AppOutcome.status =
        some .failed →
      (installLoop idx reqs bs).success = k - 1 ∧
      ∀ j, k ≤ j → j < reqs.length →
        ((installLoop idx reqs bs).outs.get? j).map AppOutcome.attempted =
          some false := by
  induction reqs with
  | nil =>
      intro idx bs k hk1 hk2 _ _
      simp only [List.length_nil] at hk2
      omega
  | cons r rest ih =>
      intro idx bs k hk1 hk2 h1 hf
      obtain ⟨k, rfl⟩ : ∃ k', k = k' + 1 := ⟨k - 1, by omega⟩
      cases k with
      | zero =>
          have hok : (runOne idx r bs).ok = false := by
            cases hok2 : (runOne idx r bs).ok
            · rfl
            · exfalso
              rw [installLoop_cons_ok idx r rest bs hok2] at hf
              simp only [Nat.add_sub_cancel, List.get?_cons_zero, Option.map_some',
                Option.some.injEq] at hf
              rw [runOne_status_ok idx r bs hok2] at hf
              cases hf
          rw [installLoop_cons_fail idx r rest bs hok]
          refine ⟨rfl, ?_⟩
          intro j hj1 hj2
          obtain ⟨j, rfl⟩ : ∃ j', j = j' + 1 := ⟨j - 1, by omega⟩
          simp only [List.get?_cons_succ]
          rw [skippedOutcomes_get rest (idx + 1) j]
          cases hr : rest.get? j with
          | none =>
              exfalso
              rw [List.get?_eq_none] at hr
              simp only [List.length_cons] at hj2
              omega
          | some r' => simp
      | succ k =>
          have hins := h1 0 (by omega)
          have hok : (runOne idx r bs).ok = true := by
            cases hok2 : (runOne idx r bs).ok
            · exfalso
              rw [installLoop_cons_fail idx r rest bs hok2] at hins
              simp only [List.get?_cons_zero, Option.map_some', Option.some.injEq] at hins
              rw [runOne_status_fail idx r bs hok2] at hins
              cases hins
            · rfl
          rw [installLoop_cons_ok idx r rest bs hok] at h1 hf ⊢
          have hrec := ih (idx + 1) (runOne idx r bs).bs (k + 1) (by omega)
            (by simp only [List.length_cons] at hk2; omega)
            (fun j hj => by
              have hh := h1 (j + 1) (by omega)
              simpa only [List.get?_cons_succ] using hh)
            (by simpa only [Nat.add_sub_cancel, List.get?_cons_succ] using hf)
          constructor
          · dsimp only
            have hs := hrec.1
            omega
          · intro j hj1 hj2
            obtain ⟨j, rfl⟩ : ∃ j', j = j' + 1 := ⟨j - 1, by omega⟩
            dsimp only
            simp only [List.get?_cons_succ]
            exact hrec.2 j (by omega)
              (by simp only [List.length_cons] at hj2; omega)

theorem installLoop_all_ok (reqs : List Request) :
    ∀ (idx : Nat) (bs : BatchState),
      (∀ j, j < reqs.length →
        ((installLoop idx reqs bs).outs.get? j).map AppOutcome.status =
          some .installed) →
      (installLoop idx reqs bs).success = reqs.length := by
  induction reqs with
  | nil => intro idx bs _; rfl
  | cons r rest ih =>
      intro idx bs h1
      have hins := h1 0 (by simp)
      have hok : (runOne idx r bs).ok = true := by
        cases hok2 : (runOne idx r bs).ok
        · exfalso
          rw [installLoop_cons_fail idx r rest bs hok2] at hins
          simp only [List.get?_cons_zero, Option.map_some', Option.some.injEq] at hins
          rw [runOne_status_fail idx r bs hok2] at hins
          cases hins
        · rfl
      rw [installLoop_cons_ok idx r rest bs hok] at h1 ⊢
      have hs := ih (idx + 1) (runOne idx r bs).bs
        (fun j hj => by
          have hh := h1 (j + 1) (by simp only [List.length_cons]; omega)
          simpa only [List.get?_cons_succ] using hh)
      dsimp only
      simp only [List.length_cons]
      omega

theorem installLoop_histories (reqs : List Request) :
    ∀ (idx : Nat) (bs : BatchState) (o : AppOutcome),
      o ∈ (installLoop idx reqs bs).outs → allowedHistory o.statusWrites := by
  induction reqs with
  | nil => intro idx bs o hm; simp [installLoop] at hm
  | cons r rest ih =>
      intro idx bs o hm
      cases hok : (runOne idx r bs).ok
      · rw [installLoop_cons_fail idx r rest bs hok] at hm
        simp only [List.mem_cons] at hm
        rcases hm with rfl | hm
        · rcases runOne_history idx r bs with h | h | h <;>
            · unfold allowedHistory
              rw [h]
              simp
        · obtain ⟨_, h2, _⟩ := skippedOutcomes_props rest (idx + 1) o hm
          exact Or.inl h2
      · rw [installLoop_cons_ok idx r rest bs hok] at hm
        simp only [List.mem_cons] at hm
        rcases hm with rfl | hm
        · rcases runOne_history idx r bs with h | h | h <;>
            · unfold allowedHistory
              rw [h]
              simp
        · exact ih (idx + 1) (runOne idx r bs).bs o hm

theorem installLoop_head_downloading (reqs : List Request) :
    ∀ (idx : Nat) (bs : BatchState) (o : AppOutcome),
      o ∈ (installLoop idx reqs bs).outs → o.attempted = true →
      o.statusWrites.head? = some .downloading := by
  induction reqs with
  | nil => intro idx bs o hm _; simp [installLoop] at hm
  | cons r rest ih =>
      intro idx bs o hm ha
      cases hok : (runOne idx r bs).ok
      · rw [installLoop_cons_fail idx r rest bs hok] at hm
        simp only [List.mem_cons] at hm
        rcases hm with rfl | hm
        · exact runOne_statusWrites_head idx r bs
        · obtain ⟨h1, _, _⟩ := skippedOutcomes_props rest (idx + 1) o hm
          rw [ha] at h1
          cases h1
      · rw [installLoop_cons_ok idx r rest bs hok] at hm
        simp only [List.mem_cons] at hm
        rcases hm with rfl | hm
        · exact runOne_statusWrites_head idx r bs
        · exact ih (idx + 1) (runOne idx r bs).bs o hm ha

theorem installLoop_unattempted_init (reqs : List Request) :
    ∀ (idx : Nat) (bs : BatchState) (o : AppOutcome),
      o ∈ (installLoop idx reqs bs).outs → o.attempted = false →
      ∃ r, r ∈ reqs ∧ o.status = r.init.status := by
  induction reqs with
  | nil => intro idx bs o hm _; simp [installLoop] at hm
  | cons r rest ih =>
      intro idx bs o hm ha
      cases hok : (runOne idx r bs).ok
      · rw [installLoop_cons_fail idx r rest bs hok] at hm
        simp only [List.mem_cons] at hm
        rcases hm with rfl | hm
        · rw [runOne_attempted idx r bs] at ha
          cases ha
        · obtain ⟨_, _, r', hr', h3⟩ := skippedOutcomes_props rest (idx + 1) o hm
          exact ⟨r', List.mem_cons_of_mem r hr', h3⟩
      · rw [installLoop_cons_ok idx r rest bs hok] at hm
        simp only [List.mem_cons] at hm
        rcases hm with rfl | hm
        · rw [runOne_attempted idx r bs] at ha
          cases ha
        · obtain ⟨r', hr', h3⟩ := ih (idx + 1) (runOne idx r bs).bs o hm ha
          exact ⟨r', List.mem_cons_of_mem r hr', h3⟩

/-! ### Claim theorems -/

/-- C2 (code bug): the claim says Integrate removes its scratch directory
on every exit path once it was created; but in the source the
`defer os.RemoveAll(tempDir)` is registered only after the
`DeflateAppImage` error check, so when deflation fails the scratch
directory, although freshly and successfully created by this very run,
is left behind.  This theorem evaluates Integrate at such an input. -/
theorem scratch_dir_left_on_deflate_failure :
    (integrate deflateFailWorld samplePaths emptyFS).res = .error .deflate ∧
    scratchDir samplePaths ∈ (integrate deflateFailWorld samplePaths emptyFS).fs.dirs ∧
    scratchDir samplePaths ∉ emptyFS.dirs := by
  decide

/-- C3: for every install request whose `Install()` returns without
error, the batch runner afterwards deletes that app id's
PendingInstallation entry, so the journal holds no entry for the id. -/
theorem journal_cleared_after_success (idx : Nat) (r : Request) (bs : BatchState)
    (h : (install idx r.world r.app ⟨.downloading, r.init.progress⟩
        bs.fs bs.registry).res = .ok ()) :
    lookupA (runOne idx r bs).bs.journal r.app.id = none := by
  simp only [runOne]
  simp [h, lookupA_eraseA]

/-- Witness for C3 on a concrete all-succeeding run. -/
theorem journal_cleared_after_success_witness :
    (install 0 sampleReq.world sampleReq.app ⟨.downloading, sampleReq.init.progress⟩
        emptyBS.fs emptyBS.registry).res = .ok () ∧
    lookupA (runOne 0 sampleReq emptyBS).bs.journal sampleReq.app.id = none :=
  ⟨by decide, journal_cleared_after_success 0 sampleReq emptyBS (by decide)⟩

/-- C4: for every install request whose Download or Integrate step fails,
the PendingInstallation entry remains in the journal, the status becomes
Failed, SaveConfig is never invoked, and — when Download completed and
Integrate failed — the bundle written by Download is left on disk
(assuming the resolved bundle path lies outside the scratch directory
and differs from the icon path). -/
theorem failed_install_keeps_journal_and_bundle (idx : Nat) (r : Request)
    (bs : BatchState) (e : Err)
    (h : (install idx r.world r.app ⟨.downloading, r.init.progress⟩
        bs.fs bs.registry).res = .error e)
    (hst : e.stage ≠ .persist) :
    lookupA (runOne idx r bs).bs.journal r.app.id = some (pendingEntry r.app) ∧
    (runOne idx r bs).outcome.status = .failed ∧
    (install idx r.world r.app ⟨.downloading, r.init.progress⟩
        bs.fs bs.registry).cfgAttempted = false ∧
    (e.stage = .integrate →
      underDir (scratchDir r.app.paths) r.app.paths.appImage = false →
      r.app.paths.appImage ≠ r.app.paths.icon →
      lookupA (runOne idx r bs).bs.fs.files r.app.paths.appImage =
        some ⟨r.world.stream.chunks.flatten, true⟩) := by
  have hok : (runOne idx r bs).ok = false := by
    cases hh : (runOne idx r bs).ok
    · rfl
    · have hres := (runOne_ok_iff idx r bs).mp hh
      rw [h] at hres
      cases hres
  refine ⟨?_, runOne_status_fail idx r bs hok,
    install_err_cfg idx r.world r.app ⟨.downloading, r.init.progress⟩
      bs.fs bs.registry e h hst, ?_⟩
  · rw [runOne_fail_journal idx r bs e h, lookupA_insertA]
    simp
  · intro hstage hq hicon
    rw [runOne_fs]
    exact install_err_integrate_fs idx r.world r.app ⟨.downloading, r.init.progress⟩
      bs.fs bs.registry e h hstage hq hicon

/-- Witness for C4 on a concrete run whose metadata extraction fails:
Download completed, Integrate failed, journal entry and bundle remain. -/
theorem failed_install_keeps_journal_and_bundle_witness :
    (install 0 extractFailReq.world extractFailReq.app
        ⟨.downloading, extractFailReq.init.progress⟩ emptyBS.fs emptyBS.registry).res =
      .error .extractMetadata ∧
    Err.extractMetadata.stage ≠ .persist ∧
    (lookupA (runOne 0 extractFailReq emptyBS).bs.journal extractFailReq.app.id =
        some (pendingEntry extractFailReq.app) ∧
     (runOne 0 extractFailReq emptyBS).outcome.status = .failed ∧
     (install 0 extractFailReq.world extractFailReq.app
        ⟨.downloading, extractFailReq.init.progress⟩ emptyBS.fs
        emptyBS.registry).cfgAttempted = false ∧
     (Err.extractMetadata.stage = .integrate →
       underDir (scratchDir extractFailReq.app.paths)
         extractFailReq.app.paths.appImage = false →
       extractFailReq.app.paths.appImage ≠ extractFailReq.app.paths.icon →
       lookupA (runOne 0 extractFailReq emptyBS).bs.fs.files
           extractFailReq.app.paths.appImage =
         some ⟨extractFailReq.world.stream.chunks.flatten, true⟩)) :=
  ⟨by decide, by decide,
   failed_install_keeps_journal_and_bundle 0 extractFailReq emptyBS
     .extractMetadata (by decide) (by decide)⟩

/-- C5: for every request the batch attempts, the PendingInstallation
registration event strictly precedes every filesystem operation of that
request's pipeline in the batch trace: the trace splits as
`pre ++ registered :: post` with no filesystem event of that request in
`pre`. -/
theorem pending_registered_before_fs_ops (reqs : List Request) (bs : BatchState)
    (j : Nat) (o : AppOutcome)
    (h : (installApps reqs bs).2.outs.get? j = some o) (ho : o.attempted = true) :
    ∃ pre post,
      (installApps reqs bs).2.trace = pre ++ Event.registered j :: post ∧
      ∀ ev ∈ pre, ev ≠ Event.fsOp j := by
  have heq : (installApps reqs bs).2 = installLoop 0 reqs bs := rfl
  rw [heq] at h ⊢
  have hres := installLoop_register_first reqs 0 bs j o h ho
  simpa only [Nat.zero_add] using hres

/-- Witness for C5 on a concrete one-request batch. -/
theorem pending_registered_before_fs_ops_witness :
    (installApps [sampleReq] emptyBS).2.outs.get? 0 =
      some (runOne 0 sampleReq emptyBS).outcome ∧
    (runOne 0 sampleReq emptyBS).outcome.attempted = true ∧
    (∃ pre post,
      (installApps [sampleReq] emptyBS).2.trace =
        pre ++ Event.registered 0 :: post ∧
      ∀ ev ∈ pre, ev ≠ Event.fsOp 0) :=
  ⟨by decide, by decide,
   pending_registered_before_fs_ops [sampleReq] emptyBS 0
     (runOne 0 sampleReq emptyBS).outcome (by decide) (by decide)⟩

/-- C6: if request k (1-based) is the first whose Install() fails, the
batch returns successCount = k−1 and failCount = N−(k−1) and never
attempts requests k+1..N; if every request succeeds it returns (N, 0). -/
theorem batch_stops_at_first_failure :
    (∀ (reqs : List Request) (bs : BatchState) (k : Nat),
        1 ≤ k → k ≤ reqs.length →
        (∀ j, j < k - 1 →
          ((installApps reqs bs).2.outs.get? j).map AppOutcome.status =
            some .installed) →
        ((installApps reqs bs).2.outs.get? (k - 1)).map AppOutcome.status =
          some .failed →
        ((installApps reqs bs).2.outs.get? (k - 1)).map AppOutcome.attempted =
          some true →
        (installApps reqs bs).1 = (k - 1, reqs.length - (k - 1)) ∧
        ∀ j, k ≤ j → j < reqs.length →
          ((installApps reqs bs).2.outs.get? j).map AppOutcome.attempted =
            some false) ∧
    (∀ (reqs : List Request) (bs : BatchState),
        (∀ j, j < reqs.length →
          ((installApps reqs bs).2.outs.get? j).map AppOutcome.status =
            some .installed) →
        (installApps reqs bs).1 = (reqs.length, 0)) := by
  constructor
  · intro reqs bs k hk1 hk2 h1 hf _
    have heq : (installApps reqs bs).2 = installLoop 0 reqs bs := rfl
    rw [heq] at h1 hf ⊢
    have hrec := installLoop_first_fail reqs 0 bs k hk1 hk2 h1 hf
    refine ⟨?_, hrec.2⟩
    show ((installLoop 0 reqs bs).success,
      reqs.length - (installLoop 0 reqs bs).success) = _
    rw [hrec.1]
  · intro reqs bs h1
    have heq : (installApps reqs bs).2 = installLoop 0 reqs bs := rfl
    rw [heq] at h1
    have hs := installLoop_all_ok reqs 0 bs h1
    show ((installLoop 0 reqs bs).success,
      reqs.length - (installLoop 0 reqs bs).success) = _
    rw [hs]
    simp

/-- Witness for C6 on a concrete three-request batch whose second
request fails: the batch returns (1, 2) and never attempts the third. -/
theorem batch_stops_at_first_failure_witness :
    (∀ j, j < 1 →
      ((installApps [sampleReq, downloadFailReq, sampleReq] emptyBS).2.outs.get? j).map
        AppOutcome.status = some InstallableAppStatus.installed) ∧
    ((installApps [sampleReq, downloadFailReq, sampleReq] emptyBS).2.outs.get? 1).map
      AppOutcome.status = some InstallableAppStatus.failed ∧
    ((installApps [sampleReq, downloadFailReq, sampleReq] emptyBS).2.outs.get? 1).map
      AppOutcome.attempted = some true ∧
    (installApps [sampleReq, downloadFailReq, sampleReq] emptyBS).1 = (1, 2) ∧
    (∀ j, 2 ≤ j → j < 3 →
      ((installApps [sampleReq, downloadFailReq, sampleReq] emptyBS).2.outs.get? j).map
        AppOutcome.attempted = some false) := by
  have h := batch_stops_at_first_failure.1 [sampleReq, downloadFailReq, sampleReq]
    emptyBS 2 (by decide) (by decide) (by decide) (by decide) (by decide)
  exact ⟨by decide, by decide, by decide, h.1, h.2⟩

/-- C7 (counterexample): a successful Download whose stream delivered
3 bytes against a declared asset size of 5 leaves the progress counter
at 3, not at the declared size, refuting the claim as stated. -/
theorem progress_counter_counterexample :
    (download shortStreamWorld samplePaths emptyFS 0).res = .ok () ∧
    (download shortStreamWorld samplePaths emptyFS 0).progress = 3 ∧
    sizeFiveAsset.size = 5 ∧
    (download shortStreamWorld samplePaths emptyFS 0).progress ≠ sizeFiveAsset.size := by
  decide

/-- C7 (amended): after a successful Download the progress counter has
been advanced by exactly the total length of the chunks written by the
fan-out Write; it equals the Asset's declared Size exactly when the
counter started at 0 and the stream delivered Size bytes in total. -/
theorem progress_equals_stream_total (w : World) (paths : AppPaths) (a : Asset)
    (fs0 : FS) (p0 : Int)
    (h : (download w paths fs0 p0).res = .ok ()) :
    (download w paths fs0 p0).progress = p0 + chunkTotal w.stream.chunks ∧
    (p0 = 0 → chunkTotal w.stream.chunks = a.size →
      (download w paths fs0 p0).progress = a.size) := by
  have hp := download_ok_progress w paths fs0 p0 h
  refine ⟨hp, fun h0 hsz => ?_⟩
  rw [hp, h0, hsz, zero_add]

/-- Witness for the amended C7 on a concrete run whose stream length
matches the declared size. -/
theorem progress_equals_stream_total_witness :
    (download okWorld samplePaths emptyFS 0).res = .ok () ∧
    ((download okWorld samplePaths emptyFS 0).progress =
        0 + chunkTotal okWorld.stream.chunks ∧
     ((0 : Int) = 0 → chunkTotal okWorld.stream.chunks = sampleAsset.size →
       (download okWorld samplePaths emptyFS 0).progress = sampleAsset.size)) :=
  ⟨by decide, progress_equals_stream_total okWorld samplePaths sampleAsset emptyFS 0 (by decide)⟩

/-- C8: every app's history of Status writes during a batch is one of
Downloading→Integrating→Installed, Downloading→Failed, or
Downloading→Integrating→Failed (empty when never attempted); in
particular a terminal status is never followed by another write. -/
theorem status_transitions_allowed (reqs : List Request) (bs : BatchState)
    (o : AppOutcome) (h : o ∈ (installApps reqs bs).2.outs) :
    allowedHistory o.statusWrites := by
  have heq : (installApps reqs bs).2 = installLoop 0 reqs bs := rfl
  rw [heq] at h
  exact installLoop_histories reqs 0 bs o h

/-- Witness for C8 on a concrete one-request batch. -/
theorem status_transitions_allowed_witness :
    (runOne 0 sampleReq emptyBS).outcome ∈ (installApps [sampleReq] emptyBS).2.outs ∧
    allowedHistory (runOne 0 sampleReq emptyBS).outcome.statusWrites :=
  ⟨by decide, status_transitions_allowed [sampleReq] emptyBS _ (by decide)⟩

/-- C9: the zero value of the int-backed status enum decodes to Failed
(the first iota constant), a freshly constructed InstallableApp reads as
Failed, the batch runner's first status write for every attempted
request is Downloading, and a request never attempted by the batch still
reads as Failed. -/
theorem status_zero_value_is_failed :
    statusOfCode 0 = some .failed ∧
    statusCode .failed = 0 ∧
    freshAppState.status = .failed ∧
    (∀ (reqs : List Request) (bs : BatchState) (o : AppOutcome),
        o ∈ (installApps reqs bs).2.outs → o.attempted = true →
        o.statusWrites.head? = some .downloading) ∧
    (∀ (reqs : List Request) (bs : BatchState) (o : AppOutcome),
        (∀ r ∈ reqs, r.init = freshAppState) →
        o ∈ (installApps reqs bs).2.outs → o.attempted = false →
        o.status = .failed) := by
  refine ⟨rfl, rfl, rfl, ?_, ?_⟩
  · intro reqs bs o h ha
    have heq : (installApps reqs bs).2 = installLoop 0 reqs bs := rfl
    rw [heq] at h
    exact installLoop_head_downloading reqs 0 bs o h ha
  · intro reqs bs o hinit h ha
    have heq : (installApps reqs bs).2 = installLoop 0 reqs bs := rfl
    rw [heq] at h
    obtain ⟨r, hr, hst⟩ := installLoop_unattempted_init reqs 0 bs o h ha
    rw [hst, hinit r hr]
    rfl

/-- Witness for C9 on a concrete batch whose first request fails, so
the second is never attempted and reads as Failed. -/
theorem status_zero_value_is_failed_witness :
    (∀ r ∈ ([downloadFailReq, sampleReq] : List Request), r.init = freshAppState) ∧
    ((⟨1, "i1", false, .failed, 0, []⟩ : AppOutcome) ∈
      (installApps [downloadFailReq, sampleReq] emptyBS).2.outs) ∧
    (⟨1, "i1", false, .failed, 0, []⟩ : AppOutcome).attempted = false ∧
    (⟨1, "i1", false, .failed, 0, []⟩ : AppOutcome).status = .failed ∧
    ((runOne 0 downloadFailReq emptyBS).outcome ∈
      (installApps [downloadFailReq, sampleReq] emptyBS).2.outs) ∧
    (runOne 0 downloadFailReq emptyBS).outcome.attempted = true ∧
    (runOne 0 downloadFailReq emptyBS).outcome.statusWrites.head? = some .downloading :=
  ⟨by decide, by decide, by decide,
   status_zero_value_is_failed.2.2.2.2 [downloadFailReq, sampleReq] emptyBS
     ⟨1, "i1", false, .failed, 0, []⟩ (by decide) (by decide) (by decide),
   by decide, by decide,
   status_zero_value_is_failed.2.2.2.1 [downloadFailReq, sampleReq] emptyBS
     (runOne 0 downloadFailReq emptyBS).outcome (by decide) (by decide)⟩

/-- C10: InstallApps on an empty request sequence returns (0, 0) and
performs nothing: the batch state is unchanged and the run's outcome
list and event trace (journal mutations, pipeline steps, printing) are
empty. -/
theorem empty_batch_is_noop (bs : BatchState) :
    installApps [] bs = ((0, 0), ⟨0, bs, [], []⟩) := rfl

end Pho
